import Mathlib

/-!
Shallow embedding of the LLMShell command safety gatekeeper and
execution/undo engine (src/SecurityValidator.py, src/CommandExecutor.py,
src/FileManager.py, src/PathManager.py, src/CommandResult.py).

Python strings are modelled as `List Char`.  Whitespace is modelled as the
six ASCII whitespace characters recognised by `str.split()` / `str.strip()`
on ASCII input.  The filesystem and operating system are modelled as
explicit state: a list of existing directory paths, an association list from
file paths to contents, and an environment supplying the working directory,
the home directory, the per-path OS write-permission bit, and the behaviour
of the subprocess boundary.  Operations that raise exceptions in Python are
modelled with `Option` or explicit failure branches, and exception text is
modelled abstractly.  Paths are treated as uninterpreted strings, exactly as
the Python code treats them (no canonicalization happens in the source).
-/

namespace LLMShell

abbrev Str := List Char

/-- Whitespace characters recognised by Python `str.split()` and
`str.strip()` on ASCII input. -/
def isPySpace (c : Char) : Bool :=
  c == ' ' || c == '\t' || c == '\n' || c == '\r' || c == '\x0b' || c == '\x0c'

/-- Shell metacharacters removed by the sanitizers via
`.replace(';','').replace('&','').replace('|','')`. -/
def isShellMeta (c : Char) : Bool :=
  c == ';' || c == '&' || c == '|'

/-- Quote characters stripped by `.strip('"\'')`. -/
def isQuoteChar (c : Char) : Bool :=
  c == '"' || c == '\''

/-- Removing every occurrence of the characters ';', '&', '|' (three chained
`str.replace` calls with empty replacement) is filtering them out. -/
def removeMeta (s : Str) : Str :=
  s.filter (fun c => !(isShellMeta c))

/-- Python `str.strip(chars)`: removes all leading and all trailing
characters drawn from the set `p`. -/
def stripEnds (p : Char → Bool) (s : Str) : Str :=
  ((s.dropWhile p).reverse.dropWhile p).reverse

/-- The `.strip('"\'')` step of `sanitize_text_content`. -/
def stripQuotes (s : Str) : Str :=
  stripEnds isQuoteChar s

/-- The control-character removal step:
`''.join(char for char in sanitized if ord(char) >= 32)`. -/
def removeCtrl (s : Str) : Str :=
  s.filter (fun c => 32 <= c.toNat)

/-- SecurityValidator.sanitize_text_content (src/SecurityValidator.py:35-44). -/
def sanitize_text_content (s : Str) : Str :=
  removeCtrl (stripQuotes (removeMeta s))

/-- SecurityValidator.sanitize_command (src/SecurityValidator.py:56-59). -/
def sanitize_command (s : Str) : Str :=
  sanitize_text_content s

/-- A character that no step of command sanitization or tokenization treats
specially: not whitespace, not a quote, not a shell metacharacter, not a
control character, not a backslash. -/
def plainChar (c : Char) : Bool :=
  !(isPySpace c) && !(isQuoteChar c) && !(isShellMeta c) &&
    (32 <= c.toNat) && !(c == '\\')

/-- Modelled from the words of claim C3: trims exactly one layer of
surrounding quote characters — one leading quote character if present and
one trailing quote character if present. -/
def stripOneQuoteLayer (s : Str) : Str :=
  let s1 :=
    match s with
    | c :: rest => if isQuoteChar c then rest else c :: rest
    | [] => []
  match s1.getLast? with
  | some c => if isQuoteChar c then s1.dropLast else s1
  | none => []

/-- The sanitizer that claim C3 describes: strips ';', '&', '|' anywhere,
trims exactly one layer of surrounding quote characters, strips characters
with code points below 32. -/
def sanitizeClaimC3 (s : Str) : Str :=
  removeCtrl (stripOneQuoteLayer (removeMeta s))

/-- Modelled from the amended claim C3: strips ';', '&', '|' anywhere; then
removes the longest run of leading quote characters and the longest run of
trailing quote characters; then strips characters with code points below
32 (stated independently of the source's definitions). -/
def sanitizeAmendedC3 (s : Str) : Str :=
  let s1 := s.filter (fun c => decide (c ≠ ';') && decide (c ≠ '&') && decide (c ≠ '|'))
  let isq : Char → Bool := fun c => decide (c = '"') || decide (c = '\'')
  let s2 := ((s1.dropWhile isq).reverse.dropWhile isq).reverse
  s2.filter (fun c => decide (32 ≤ c.toNat))

/-- Python `str.strip()` with no argument: removes leading and trailing
whitespace. -/
def pyStrip (s : Str) : Str :=
  stripEnds isPySpace s

/-- One pass of `sanitized.replace('../', '')`: Python `replace` scans left
to right removing non-overlapping occurrences of the pattern. -/
def replaceDotDot (s : Str) : Str :=
  match s with
  | [] => []
  | c :: rest =>
    if c = '.' ∧ rest.take 2 = ['.', '/'] then replaceDotDot (rest.drop 2)
    else c :: replaceDotDot rest
termination_by s.length
decreasing_by
  all_goals simp only [List.length_cons, List.length_drop]
  all_goals omega

/-- The test `'../' in sanitized`: the literal substring occurs at the head
or somewhere in the tail. -/
def containsDotDot (s : Str) : Bool :=
  match s with
  | [] => false
  | c :: rest => (decide (c = '.' ∧ rest.take 2 = ['.', '/'])) || containsDotDot rest

/-- The `while '../' in sanitized:` loop of `sanitize_path`
(src/SecurityValidator.py:52-53), with an explicit iteration budget.
Each iteration strictly shrinks the string (`replaceDotDot_length_lt`
below), so a budget of the string's length always suffices and the fuelled
recursion is extensionally the `while` loop. -/
def dropDotDotLoopFuel : Nat → Str → Str
  | 0, s => s
  | n + 1, s =>
    if containsDotDot s = true then dropDotDotLoopFuel n (replaceDotDot s) else s

/-- The `while` loop of `sanitize_path`, run to completion. -/
def dropDotDotLoop (s : Str) : Str :=
  dropDotDotLoopFuel s.length s

/-- SecurityValidator.sanitize_path (src/SecurityValidator.py:46-54). -/
def sanitize_path (s : Str) : Str :=
  pyStrip (dropDotDotLoop (removeMeta s))

/-- Python `str.lower()` (ASCII case folding suffices for the claims). -/
def pyLower (s : Str) : Str :=
  s.map Char.toLower

/-- Helper for Python `str.split()` with no separator: `acc` is the current
token accumulated in reverse. -/
def pySplitAux : Str → Str → List Str
  | [], acc => if acc = [] then [] else [acc.reverse]
  | c :: rest, acc =>
    if isPySpace c then
      if acc = [] then pySplitAux rest [] else acc.reverse :: pySplitAux rest []
    else pySplitAux rest (c :: acc)

/-- Python `str.split()` with no separator: whitespace runs separate tokens,
no empty tokens are produced. -/
def pySplit (s : Str) : List Str :=
  pySplitAux s []

/-- Lexer modes for `shlex.split`: outside quotes, inside single quotes,
inside double quotes. -/
inductive ShlexMode where
  | norm : ShlexMode
  | single : ShlexMode
  | double : ShlexMode
deriving DecidableEq

/-- Core of `shlex.split` in POSIX mode, modelling whitespace splitting and
single/double-quote grouping (backslash escapes do not occur in any input
relevant to the claims).  `none` models the `ValueError` raised on an
unterminated quote. -/
def shlexCore : Str → ShlexMode → Str → Bool → List Str → Option (List Str)
  | [], ShlexMode.norm, cur, inTok, acc =>
    some (if inTok then acc ++ [cur.reverse] else acc)
  | [], _, _, _, _ => none
  | c :: rest, ShlexMode.norm, cur, inTok, acc =>
    if isPySpace c then
      if inTok then shlexCore rest ShlexMode.norm [] false (acc ++ [cur.reverse])
      else shlexCore rest ShlexMode.norm [] false acc
    else if c = '\'' then shlexCore rest ShlexMode.single cur true acc
    else if c = '"' then shlexCore rest ShlexMode.double cur true acc
    else shlexCore rest ShlexMode.norm (c :: cur) true acc
  | c :: rest, ShlexMode.single, cur, _, acc =>
    if c = '\'' then shlexCore rest ShlexMode.norm cur true acc
    else shlexCore rest ShlexMode.single (c :: cur) true acc
  | c :: rest, ShlexMode.double, cur, _, acc =>
    if c = '"' then shlexCore rest ShlexMode.norm cur true acc
    else shlexCore rest ShlexMode.double (c :: cur) true acc

/-- Python `shlex.split(command)`. -/
def shlexSplit (s : Str) : Option (List Str) :=
  shlexCore s ShlexMode.norm [] false []

/-- Python `command.split('>', 1)`: the part before the first '>' and the
part after it (the caller only uses this when '>' is known to occur). -/
def splitFirstGt : Str → Str × Str
  | [] => ([], [])
  | '>' :: rest => ([], rest)
  | c :: rest =>
    let pr := splitFirstGt rest
    (c :: pr.1, pr.2)

/-- Python `command.split('>')[-1]`: everything after the last '>', or the
whole string when '>' does not occur. -/
def afterLastGt (s : Str) : Str :=
  (s.reverse.takeWhile (fun c => !(c == '>'))).reverse

/-- Python `str.replace('echo', '', 1)`: removes only the first occurrence
of the substring. -/
def removeFirstEcho : Str → Str
  | 'e' :: 'c' :: 'h' :: 'o' :: rest => rest
  | c :: rest => c :: removeFirstEcho rest
  | [] => []

/-- The final component of a path as in `pathlib` (trailing slashes are
dropped, then the segment after the last '/'). -/
def pathName (p : Str) : Str :=
  let q := p.reverse.dropWhile (fun c => c == '/')
  (q.takeWhile (fun c => !(c == '/'))).reverse

/-- CPython pathlib `PurePath.suffix`: the part of the name from its last
dot, empty when the dot is absent, leading, or trailing. -/
def pathSuffix (p : Str) : Str :=
  let name := pathName p
  let tail := name.reverse.takeWhile (fun c => !(c == '.'))
  if tail.length = name.length then []
  else if tail.length = 0 then []
  else if tail.length + 1 = name.length then []
  else '.' :: tail.reverse

/-- pathlib `PurePath.parent`: drop trailing slashes and the final
component; a bare name has parent '.', a single component under the root
has parent '/'. -/
def pathParent (p : Str) : Str :=
  let q := (p.reverse.dropWhile (fun c => c == '/')).reverse
  if q = [] then (if p = [] then ['.'] else ['/'])
  else if q.contains '/' = false then ['.']
  else
    let r := (q.reverse.dropWhile (fun c => !(c == '/'))).dropWhile (fun c => c == '/')
    if r = [] then ['/'] else r.reverse

/-- pathlib `/` join of an absolute base and a relative component (the base
is assumed not to end in '/'). -/
def pathJoin (base rel : Str) : Str :=
  base ++ '/' :: rel

/-- Resolution of a possibly-relative path against the working directory,
as done both by `Path.cwd() / p` in the handlers and by the operating
system for the relative paths handed to `shutil.rmtree` / `os.remove`
during undo.  No '~' expansion happens here. -/
def resolveAbsOrRel (cwd p : Str) : Str :=
  if List.isPrefixOf ['/'] p then p else pathJoin cwd p

/-- Python `Path.expanduser` for the forms '~' and '~/rest' (the '~user'
form consults the user database and does not occur in the claims; it is
modelled as returning the path unchanged). -/
def expanduser (home p : Str) : Str :=
  if p = ['~'] then home
  else if List.isPrefixOf ['~', '/'] p then home ++ p.drop 1
  else p

def echoStr : Str := "echo".data

def mkdirStr : Str := "mkdir".data

def touchStr : Str := "touch".data

def rmStr : Str := "rm".data

def mkfsStr : Str := "mkfs".data

def ddStr : Str := "dd".data

def mvStr : Str := "mv".data

def chmodStr : Str := "chmod".data

/-- The fork-bomb literal of the deny-list. -/
def forkBombStr : Str := ":()\x7b:|:&\x7d;:".data

def txtExt : Str := ".txt".data

def mdExt : Str := ".md".data

def csvExt : Str := ".csv".data

/-- SecurityValidator.BLOCKED_COMMANDS (src/SecurityValidator.py:6); a
Python set, modelled as a list (only membership is ever used). -/
def BLOCKED_COMMANDS : List Str :=
  [rmStr, mkfsStr, ddStr, forkBombStr, mvStr, chmodStr]

/-- BLOCKED_COMMANDS without the fork-bomb entry (used to state that the
fork-bomb entry is inert). -/
def BLOCKED_COMMANDS_sansFork : List Str :=
  [rmStr, mkfsStr, ddStr, mvStr, chmodStr]

/-- SecurityValidator.ALLOWED_COMMANDS (src/SecurityValidator.py:7). -/
def ALLOWED_COMMANDS : List Str :=
  [touchStr, echoStr, mkdirStr]

/-- SecurityValidator.ALLOWED_FILE_EXTENSIONS (src/SecurityValidator.py:8). -/
def ALLOWED_FILE_EXTENSIONS : List Str :=
  [txtExt, mdExt, csvExt]

/-- SecurityValidator.is_safe_command (src/SecurityValidator.py:10-33),
parameterized by the deny-list so that the inertness of individual entries
can be stated. -/
def is_safe_command_with (blocked : List Str) (command : Str) : Bool :=
  let command_parts := pySplit (pyLower command)
  let base_command := command_parts.headD []
  if blocked.any (fun b => command_parts.contains b) then false
  else if ALLOWED_COMMANDS.contains base_command then
    (if base_command = touchStr then
      ALLOWED_FILE_EXTENSIONS.contains
        (pathSuffix (if 1 < command_parts.length then command_parts.getLastD [] else []))
    else true)
  else if echoStr.isPrefixOf command && command.contains '>' then
    ALLOWED_FILE_EXTENSIONS.contains (pathSuffix (pyStrip (afterLastGt command)))
  else false

/-- SecurityValidator.is_safe_command with the deny-list of the source. -/
def is_safe_command (command : Str) : Bool :=
  is_safe_command_with BLOCKED_COMMANDS command

/-- CommandResult (src/CommandResult.py:9-15). -/
structure CommandResult where
  success : Bool
  output : Str
  command : Str
  error : Option Str
deriving DecidableEq

/-- The filesystem: existing directories and files with their contents. -/
structure FS where
  dirs : List Str
  files : List (Str × Str)
deriving DecidableEq

/-- The ambient operating system: working directory, home directory, the
OS write-permission bit per path, and the behaviour of the subprocess
boundary (whether `subprocess.run` raises, its exit code, stdout, stderr). -/
structure Env where
  cwd : Str
  home : Str
  perm : Str → Bool
  runRaises : List Str → Bool
  runExit : List Str → Int
  runOut : List Str → Str
  runErr : List Str → Str

/-- The executor's mutable state: the filesystem and the undo journal
(`self.previous_commands`). -/
structure ExecState where
  fs : FS
  journal : List Str
deriving DecidableEq

/-- Outcome of one `execute_command` call, instrumented with whether the
subprocess boundary was invoked and whether `is_safe_command` was
consulted (the spy of the spec's testable property). -/
structure Outcome where
  result : CommandResult
  state : ExecState
  spawned : Bool
  checkedSafe : Bool
deriving DecidableEq

def msgBlocked : Str := "Comando bloqueado por motivos de segurança".data

def msgNoHistory : Str := "Nenhum comando anterior para desfazer.".data

def msgUnsupported : Str := "Comando não suportado para desfazer.".data

def msgMkdirInvalid : Str := "Comando mkdir inválido".data

def msgTouchInvalid : Str := "Comando touch inválido".data

def msgEchoInvalid : Str := "Comando inválido para echo".data

/-- Text of the ValueError raised by `shlex.split` on an unterminated
quote. -/
def msgNoClosingQuote : Str := "No closing quotation".data

/-- Exception text `str(e)` of an OS-level error on a path; the concrete
wording is irrelevant to the claims and is modelled abstractly. -/
def msgOSError (p : Str) : Str := "OSError: ".data ++ p

/-- Exception text of a `subprocess.run` failure (timeout or spawn error);
modelled abstractly. -/
def msgSpawnError : Str := "subprocess error".data

def msgDirNotFound (p : Str) : Str := "Diretório não encontrado: ".data ++ p

def msgPermWrite (p : Str) : Str :=
  "Permissão negada para escrever no arquivo: ".data ++ p

def msgPermDir (p : Str) : Str :=
  "Permissão negada para criar diretório em: ".data ++ p

def msgPermTouch (p : Str) : Str :=
  "Permissão negada para criar arquivo em: ".data ++ p

def msgDirCreated (p : Str) : Str := "Diretório criado com sucesso: ".data ++ p

def msgDirFail (p : Str) : Str :=
  "Não foi possível criar o diretório: ".data ++ p

def msgWriteOk (p : Str) : Str := "Conteúdo escrito com sucesso em: ".data ++ p

def msgTouchOk (p : Str) : Str := "Arquivo criado com sucesso: ".data ++ p

def msgTouchErr (p : Str) : Str := "Erro ao criar arquivo: ".data ++ msgOSError p

def msgRemovedDir (p : Str) : Str := "Diretório removido com sucesso: ".data ++ p

def msgRemovedFile (p : Str) : Str := "Arquivo removido com sucesso: ".data ++ p

/-- The joined extension list in the touch error message (the Python set
iteration order is unspecified; the list order is fixed here). -/
def msgExtDenied : Str :=
  "Extensão de arquivo não permitida. Use: .txt, .md, .csv".data

/-- Python `os.access(p, os.W_OK)`: the path exists as a directory and the
OS grants write permission on it. -/
def osAccessW (env : Env) (fs : FS) (p : Str) : Bool :=
  fs.dirs.contains p && env.perm p

/-- PathManager.has_write_permission (src/PathManager.py:32-35): checks
write access on the parent of the given path. -/
def has_write_permission (env : Env) (fs : FS) (path : Str) : Bool :=
  osAccessW env fs (pathParent path)

/-- PathManager.ensure_directory_exists (src/PathManager.py:19-30):
`path.mkdir(parents=True, exist_ok=True)` wrapped to return a Bool.
Creation of a chain of several missing ancestors is modelled one level
deep, which covers every command reachable in the claims. -/
def ensure_directory_exists (env : Env) (fs : FS) (path : Str) : Bool × FS :=
  if fs.dirs.contains path then (true, fs)
  else if fs.dirs.contains (pathParent path) && env.perm (pathParent path) then
    (true, { fs with dirs := path :: fs.dirs })
  else (false, fs)

/-- Writing a file with `open(path, 'w')`: overwrites any existing entry. -/
def setFile (fs : FS) (p content : Str) : FS :=
  { fs with files := (p, content) :: fs.files.filter (fun kv => !(kv.1 == p)) }

/-- `Path.touch()`: creates an empty file when absent, leaves an existing
file unchanged. -/
def touchFile (fs : FS) (p : Str) : FS :=
  if fs.files.any (fun kv => kv.1 == p) then fs
  else { fs with files := (p, []) :: fs.files }

/-- Whether `p` is `root` or lies below it. -/
def isUnder (root p : Str) : Bool :=
  p == root || List.isPrefixOf (root ++ ['/']) p

/-- `shutil.rmtree(p)`: the operating system resolves a relative path
against the working directory; fails (raises) when the directory does not
exist or the OS denies the removal. -/
def rmtree (env : Env) (fs : FS) (p : Str) : Option FS :=
  let rp := resolveAbsOrRel env.cwd p
  if fs.dirs.contains rp && env.perm (pathParent rp) then
    some ⟨fs.dirs.filter (fun d => !(isUnder rp d)),
          fs.files.filter (fun kv => !(isUnder rp kv.1))⟩
  else none

/-- `os.remove(p)`: same resolution as `rmtree`; fails when the file does
not exist or the OS denies the removal. -/
def osRemove (env : Env) (fs : FS) (p : Str) : Option FS :=
  let rp := resolveAbsOrRel env.cwd p
  if fs.files.any (fun kv => kv.1 == rp) && env.perm (pathParent rp) then
    some ⟨fs.dirs, fs.files.filter (fun kv => !(kv.1 == rp))⟩
  else none

/-- FileManager.write_to_file (src/FileManager.py:65-105).  Note the
permission probe: `has_write_permission(file_path.parent)` inspects
`os.access` on the parent of the parent.  The final branch models the
`open(file_path, 'w')` call, which the OS allows exactly when it grants
write permission on the parent directory; its `PermissionError` is caught
by the surrounding `except`. -/
def write_to_file (env : Env) (fs : FS) (file_path content command : Str) :
    CommandResult × FS :=
  if !(fs.dirs.contains (pathParent file_path)) then
    (⟨false, [], command, some (msgDirNotFound (pathParent file_path))⟩, fs)
  else if !(has_write_permission env fs (pathParent file_path)) then
    (⟨false, [], command, some (msgPermWrite file_path)⟩, fs)
  else if env.perm (pathParent file_path) then
    (⟨true, msgWriteOk file_path, command, none⟩,
     setFile fs file_path (sanitize_text_content content))
  else
    (⟨false, [], command, some (msgOSError file_path)⟩, fs)

/-- CommandExecutor._handle_echo (src/CommandExecutor.py:279-308). -/
def handle_echo (env : Env) (fs : FS) (command : Str) : CommandResult × FS :=
  if !(command.contains '>') then
    (⟨false, [], command, some msgEchoInvalid⟩, fs)
  else
    let pr := splitFirstGt command
    let content := stripQuotes (pyStrip (removeFirstEcho pr.1))
    let file_path := sanitize_path (pyStrip pr.2)
    write_to_file env fs file_path content command

/-- CommandExecutor._handle_mkdir (src/CommandExecutor.py:225-277). -/
def handle_mkdir (env : Env) (fs : FS) (command : Str) : CommandResult × FS :=
  match shlexSplit command with
  | none => (⟨false, [], command, some msgNoClosingQuote⟩, fs)
  | some parts =>
    if parts.length < 2 then (⟨false, [], command, some msgMkdirInvalid⟩, fs)
    else
      let dir_name := parts.getLastD []
      let path :=
        if List.isPrefixOf ['~'] dir_name then expanduser env.home dir_name
        else resolveAbsOrRel env.cwd dir_name
      if !(has_write_permission env fs path) then
        (⟨false, [], command, some (msgPermDir path)⟩, fs)
      else
        let ed := ensure_directory_exists env fs path
        if ed.1 then (⟨true, msgDirCreated path, command, none⟩, ed.2)
        else (⟨false, [], command, some (msgDirFail path)⟩, fs)

/-- CommandExecutor._handle_touch (src/CommandExecutor.py:129-192).  The
final branch models `full_path.touch()`, which succeeds exactly when the
parent directory exists and the OS grants write permission on it. -/
def handle_touch (env : Env) (fs : FS) (command : Str) : CommandResult × FS :=
  match shlexSplit command with
  | none => (⟨false, [], command, some msgNoClosingQuote⟩, fs)
  | some parts =>
    if parts.length < 2 then (⟨false, [], command, some msgTouchInvalid⟩, fs)
    else
      let file_path := parts.getLastD []
      let full_path := resolveAbsOrRel env.cwd file_path
      if !(has_write_permission env fs full_path) then
        (⟨false, [], command, some (msgPermTouch full_path)⟩, fs)
      else if !(ALLOWED_FILE_EXTENSIONS.contains (pathSuffix full_path)) then
        (⟨false, [], command, some msgExtDenied⟩, fs)
      else if fs.dirs.contains (pathParent full_path) && env.perm (pathParent full_path) then
        (⟨true, msgTouchOk full_path, command, none⟩, touchFile fs full_path)
      else
        (⟨false, [], command, some (msgTouchErr full_path)⟩, fs)

/-- CommandExecutor.execute_command (src/CommandExecutor.py:19-67).  The
journal append (`self.previous_commands.append(command)`) runs after every
dispatch that returns a result; the security-blocked early return and the
exceptions of the generic path (`shlex.split`, `subprocess.run`) bypass
it. -/
def execute (env : Env) (st : ExecState) (raw : Str) : Outcome :=
  let command := sanitize_command raw
  if echoStr.isPrefixOf command && command.contains '>' then
    let rf := handle_echo env st.fs command
    ⟨rf.1, ⟨rf.2, st.journal ++ [command]⟩, false, false⟩
  else if mkdirStr.isPrefixOf command then
    let rf := handle_mkdir env st.fs command
    ⟨rf.1, ⟨rf.2, st.journal ++ [command]⟩, false, false⟩
  else if touchStr.isPrefixOf command then
    let rf := handle_touch env st.fs command
    ⟨rf.1, ⟨rf.2, st.journal ++ [command]⟩, false, false⟩
  else if !(is_safe_command command) then
    ⟨⟨false, [], command, some msgBlocked⟩, st, false, true⟩
  else
    match shlexSplit command with
    | none => ⟨⟨false, [], command, some msgNoClosingQuote⟩, st, false, true⟩
    | some args =>
      if env.runRaises args then
        ⟨⟨false, [], command, some msgSpawnError⟩, st, true, true⟩
      else
        ⟨⟨env.runExit args == 0, env.runOut args, command,
          if env.runExit args == 0 then none else some (env.runErr args)⟩,
         ⟨st.fs, st.journal ++ [command]⟩, true, true⟩

/-- CommandExecutor.undo_last_command (src/CommandExecutor.py:69-127).
`none` models the uncaught IndexError of `command_parts[0]` when the
popped entry has no tokens (that line sits outside any `try`). -/
def undo (env : Env) (st : ExecState) : Option (CommandResult × ExecState) :=
  match st.journal.getLast? with
  | none => some (⟨false, [], [], some msgNoHistory⟩, st)
  | some last_command =>
    let journal' := st.journal.dropLast
    let command_parts := pySplit last_command
    match command_parts.head? with
    | none => none
    | some t =>
      if t = mkdirStr then
        let dir_path := command_parts.getLastD []
        match rmtree env st.fs dir_path with
        | some fs' =>
          some (⟨true, msgRemovedDir dir_path, last_command, none⟩, ⟨fs', journal'⟩)
        | none =>
          some (⟨false, [], last_command, some (msgOSError dir_path)⟩, ⟨st.fs, journal'⟩)
      else if t = touchStr then
        let file_path := command_parts.getLastD []
        match osRemove env st.fs file_path with
        | some fs' =>
          some (⟨true, msgRemovedFile file_path, last_command, none⟩, ⟨fs', journal'⟩)
        | none =>
          some (⟨false, [], last_command, some (msgOSError file_path)⟩, ⟨st.fs, journal'⟩)
      else some (⟨false, [], last_command, some msgUnsupported⟩, ⟨st.fs, journal'⟩)

/-- A benign environment for concrete runs: cwd /w, home /home/u, all
permissions granted, subprocesses never raise and exit 0. -/
def envA : Env :=
  ⟨"/w".data, "/home/u".data, fun _ => true, fun _ => false, fun _ => 0,
   fun _ => [], fun _ => []⟩

/-- A small filesystem for concrete runs. -/
def fsA : FS :=
  ⟨[['/'], "/w".data, "/home".data, "/home/u".data], []⟩

/-- Initial executor state for concrete runs: empty journal. -/
def stA : ExecState := ⟨fsA, []⟩

/-- An environment in which the OS grants no write permission anywhere. -/
def envNoPerm : Env :=
  ⟨"/w".data, "/home/u".data, fun _ => false, fun _ => false, fun _ => 0,
   fun _ => [], fun _ => []⟩

/-- An environment in which /a is not OS-writable but everything else is. -/
def envC9x : Env :=
  ⟨"/w".data, "/home/u".data, fun p => !(p == "/a".data), fun _ => false,
   fun _ => 0, fun _ => [], fun _ => []⟩

/-- A filesystem containing the directory chain /a/b. -/
def fsC9x : FS :=
  ⟨[['/'], "/a".data, "/a/b".data], []⟩

/-! ### Helper lemmas about the string primitives -/

theorem dropWhile_eq_self_of_forall (p : Char → Bool) (l : Str)
    (h : ∀ c ∈ l, p c = false) : l.dropWhile p = l := by
  cases l with
  | nil => rfl
  | cons c rest =>
    rw [List.dropWhile_cons, h c (List.mem_cons_self c rest)]
    simp

theorem stripEnds_eq_self (p : Char → Bool) (s : Str)
    (h : ∀ c ∈ s, p c = false) : stripEnds p s = s := by
  unfold stripEnds
  rw [dropWhile_eq_self_of_forall p s h]
  rw [dropWhile_eq_self_of_forall p s.reverse (fun c hc => h c (List.mem_reverse.mp hc))]
  exact List.reverse_reverse s

theorem sanitize_command_eq_self (s : Str)
    (h : ∀ c ∈ s, isShellMeta c = false ∧ isQuoteChar c = false ∧ 32 ≤ c.toNat) :
    sanitize_command s = s := by
  unfold sanitize_command sanitize_text_content
  have h1 : removeMeta s = s := by
    unfold removeMeta
    exact List.filter_eq_self.mpr (fun c hc => by rw [(h c hc).1]; rfl)
  rw [h1]
  have h2 : stripQuotes s = s := by
    unfold stripQuotes
    exact stripEnds_eq_self _ _ (fun c hc => (h c hc).2.1)
  rw [h2]
  unfold removeCtrl
  exact List.filter_eq_self.mpr (fun c hc => decide_eq_true (h c hc).2.2)

/-- The trailing-strip pass returns a prefix of its input. -/
theorem revDrop_front (p : Char → Bool) (l : Str) :
    (l.reverse.dropWhile p).reverse <+: l := by
  obtain ⟨t, ht⟩ := List.dropWhile_suffix (l := l.reverse) p
  exact ⟨t.reverse, by rw [← List.reverse_append, ht, List.reverse_reverse]⟩

theorem stripEnds_within (p : Char → Bool) (s : Str) : stripEnds p s <:+: s := by
  unfold stripEnds
  exact ((revDrop_front p (s.dropWhile p)).isInfix).trans
    (List.dropWhile_suffix p).isInfix

theorem dropWhile_idem (p : Char → Bool) (l : Str) :
    (l.dropWhile p).dropWhile p = l.dropWhile p := by
  induction l with
  | nil => rfl
  | cons c rest ih =>
    rw [List.dropWhile_cons]
    by_cases h : p c = true
    · rw [if_pos h]
      exact ih
    · rw [if_neg h, List.dropWhile_cons, if_neg h]

theorem dropWhile_eq_self_of_front (p : Char → Bool) (l₁ l₂ : Str)
    (hp : l₁ <+: l₂) (h : l₂.dropWhile p = l₂) : l₁.dropWhile p = l₁ := by
  cases l₁ with
  | nil => rfl
  | cons c rest =>
    cases l₂ with
    | nil => exact absurd (List.prefix_nil.mp hp) (by simp)
    | cons d t =>
      obtain ⟨hcd, _⟩ := List.cons_prefix_cons.mp hp
      subst hcd
      have hpc : p c = false := by
        by_contra hb
        have hb' : p c = true := by
          cases hpc : p c
          · exact absurd hpc hb
          · rfl
        rw [List.dropWhile_cons, if_pos hb'] at h
        have := congrArg List.length h
        have hle := (List.dropWhile_sublist (l := t) p).length_le
        simp only [List.length_cons] at this
        omega
      rw [List.dropWhile_cons, if_neg (by rw [hpc]; simp)]

theorem stripEnds_idem (p : Char → Bool) (s : Str) :
    stripEnds p (stripEnds p s) = stripEnds p s := by
  have hA : (stripEnds p s).dropWhile p = stripEnds p s := by
    apply dropWhile_eq_self_of_front p _ (s.dropWhile p)
    · exact revDrop_front p (s.dropWhile p)
    · exact dropWhile_idem p s
  have hrev : (stripEnds p s).reverse = (s.dropWhile p).reverse.dropWhile p := by
    show ((s.dropWhile p).reverse.dropWhile p).reverse.reverse = _
    rw [List.reverse_reverse]
  calc stripEnds p (stripEnds p s)
      = (((stripEnds p s).dropWhile p).reverse.dropWhile p).reverse := rfl
    _ = ((stripEnds p s).reverse.dropWhile p).reverse := by rw [hA]
    _ = (((s.dropWhile p).reverse.dropWhile p).dropWhile p).reverse := by rw [hrev]
    _ = ((s.dropWhile p).reverse.dropWhile p).reverse := by rw [dropWhile_idem]
    _ = stripEnds p s := rfl

/-! ### Tokenization lemmas -/

/-- A whitespace-free word is one token of `str.split()`. -/
theorem pySplitAux_nospace (w : Str) :
    ∀ acc : Str, (∀ c ∈ w, isPySpace c = false) → (acc ≠ [] ∨ w ≠ []) →
      pySplitAux w acc = [acc.reverse ++ w] := by
  induction w with
  | nil =>
    intro acc _ hne
    have hacc : acc ≠ [] := by
      rcases hne with h | h
      · exact h
      · exact absurd rfl h
    simp [pySplitAux, hacc]
  | cons c rest ih =>
    intro acc hw _
    have hc : isPySpace c = false := hw c (List.mem_cons_self c rest)
    show pySplitAux (c :: rest) acc = [acc.reverse ++ c :: rest]
    rw [pySplitAux, hc]
    simp only [Bool.false_eq_true, if_false]
    rw [ih (c :: acc) (fun d hd => hw d (List.mem_cons_of_mem c hd)) (Or.inl (by simp))]
    simp

/-- Every character of every `str.split()` token comes from the input (or
from the accumulator). -/
theorem pySplitAux_chars (s : Str) :
    ∀ acc t, t ∈ pySplitAux s acc → ∀ c ∈ t, c ∈ s ∨ c ∈ acc := by
  induction s with
  | nil =>
    intro acc t ht c hc
    rw [pySplitAux] at ht
    by_cases hacc : acc = ([] : Str)
    · rw [if_pos hacc] at ht
      exact absurd ht (List.not_mem_nil t)
    · rw [if_neg hacc] at ht
      have : t = acc.reverse := List.mem_singleton.mp ht
      subst this
      exact Or.inr (List.mem_reverse.mp hc)
  | cons d rest ih =>
    intro acc t ht c hc
    rw [pySplitAux] at ht
    by_cases hd : isPySpace d = true
    · rw [hd] at ht
      simp only [if_true] at ht
      by_cases hacc : acc = ([] : Str)
      · rw [if_pos hacc] at ht
        rcases ih [] t ht c hc with h | h
        · exact Or.inl (List.mem_cons_of_mem d h)
        · exact absurd h (List.not_mem_nil c)
      · rw [if_neg hacc] at ht
        rcases List.mem_cons.mp ht with h | h
        · subst h
          exact Or.inr (List.mem_reverse.mp hc)
        · rcases ih [] t h c hc with h2 | h2
          · exact Or.inl (List.mem_cons_of_mem d h2)
          · exact absurd h2 (List.not_mem_nil c)
    · rw [Bool.not_eq_true] at hd
      rw [hd] at ht
      simp only [Bool.false_eq_true, if_false] at ht
      rcases ih (d :: acc) t ht c hc with h | h
      · exact Or.inl (List.mem_cons_of_mem d h)
      · rcases List.mem_cons.mp h with h2 | h2
        · exact Or.inl (h2 ▸ List.mem_cons_self d rest)
        · exact Or.inr h2

theorem plainChar_not_space {c : Char} (h : plainChar c = true) :
    isPySpace c = false := by
  unfold plainChar at h
  simp only [Bool.and_eq_true, Bool.not_eq_true'] at h
  exact h.1.1.1.1

theorem plainChar_not_single {c : Char} (h : plainChar c = true) : ¬(c = '\'') := by
  unfold plainChar at h
  simp only [Bool.and_eq_true, Bool.not_eq_true'] at h
  have := h.1.1.1.2
  unfold isQuoteChar at this
  intro hc
  subst hc
  simp at this

theorem plainChar_not_double {c : Char} (h : plainChar c = true) : ¬(c = '"') := by
  unfold plainChar at h
  simp only [Bool.and_eq_true, Bool.not_eq_true'] at h
  have := h.1.1.1.2
  unfold isQuoteChar at this
  intro hc
  subst hc
  simp at this

/-- `shlex.split` consumes a word of plain characters as one token. -/
theorem shlexCore_plain (w : Str) :
    ∀ cur acc, (∀ c ∈ w, plainChar c = true) →
      shlexCore w ShlexMode.norm cur true acc = some (acc ++ [cur.reverse ++ w]) := by
  induction w with
  | nil =>
    intro cur acc _
    simp [shlexCore]
  | cons c rest ih =>
    intro cur acc hw
    have hc := hw c (List.mem_cons_self c rest)
    rw [shlexCore, plainChar_not_space hc]
    simp only [Bool.false_eq_true, if_false]
    rw [if_neg (plainChar_not_single hc), if_neg (plainChar_not_double hc)]
    rw [ih (c :: cur) acc (fun d hd => hw d (List.mem_cons_of_mem c hd))]
    simp

/-- `shlex.split` of `mkdir <arg>` for a plain argument. -/
theorem shlexSplit_mkdir (arg : Str) (hw : ∀ c ∈ arg, plainChar c = true)
    (hne : arg ≠ []) : shlexSplit (mkdirStr ++ ' ' :: arg) = some [mkdirStr, arg] := by
  have h0 : shlexSplit (mkdirStr ++ ' ' :: arg) =
      shlexCore arg ShlexMode.norm [] false [mkdirStr] := rfl
  rw [h0]
  cases arg with
  | nil => exact absurd rfl hne
  | cons c rest =>
    have hc := hw c (List.mem_cons_self c rest)
    rw [shlexCore, plainChar_not_space hc]
    simp only [Bool.false_eq_true, if_false]
    rw [if_neg (plainChar_not_single hc), if_neg (plainChar_not_double hc)]
    rw [shlexCore_plain rest [c] [mkdirStr] (fun d hd => hw d (List.mem_cons_of_mem c hd))]
    simp

/-- `shlex.split` of `touch <arg>` for a plain argument. -/
theorem shlexSplit_touch (arg : Str) (hw : ∀ c ∈ arg, plainChar c = true)
    (hne : arg ≠ []) : shlexSplit (touchStr ++ ' ' :: arg) = some [touchStr, arg] := by
  have h0 : shlexSplit (touchStr ++ ' ' :: arg) =
      shlexCore arg ShlexMode.norm [] false [touchStr] := rfl
  rw [h0]
  cases arg with
  | nil => exact absurd rfl hne
  | cons c rest =>
    have hc := hw c (List.mem_cons_self c rest)
    rw [shlexCore, plainChar_not_space hc]
    simp only [Bool.false_eq_true, if_false]
    rw [if_neg (plainChar_not_single hc), if_neg (plainChar_not_double hc)]
    rw [shlexCore_plain rest [c] [touchStr] (fun d hd => hw d (List.mem_cons_of_mem c hd))]
    simp

/-- `str.split()` of `mkdir <arg>` for a whitespace-free argument. -/
theorem pySplit_mkdir (arg : Str) (hw : ∀ c ∈ arg, isPySpace c = false)
    (hne : arg ≠ []) : pySplit (mkdirStr ++ ' ' :: arg) = [mkdirStr, arg] := by
  have h0 : pySplit (mkdirStr ++ ' ' :: arg) = mkdirStr :: pySplitAux arg [] := rfl
  rw [h0, pySplitAux_nospace arg [] hw (Or.inr hne)]
  simp

/-! ### Lemmas about the path sanitizer loop -/

theorem replaceDotDot_length_le :
    ∀ s : Str, (replaceDotDot s).length ≤ s.length := by
  intro s
  induction s using replaceDotDot.induct with
  | case1 => simp [replaceDotDot]
  | case2 c rest h ih =>
    rw [replaceDotDot, if_pos h]
    have h2 : 2 ≤ rest.length := by
      have := congrArg List.length h.2
      simp [List.length_take] at this
      omega
    simp only [List.length_cons, List.length_drop] at *
    omega
  | case3 c rest h ih =>
    rw [replaceDotDot, if_neg h]
    simp only [List.length_cons]
    omega

/-- One pass of replacement strictly shrinks a string containing the
pattern. -/
theorem replaceDotDot_length_lt :
    ∀ s : Str, containsDotDot s = true → (replaceDotDot s).length < s.length := by
  intro s
  induction s using replaceDotDot.induct with
  | case1 => simp [containsDotDot]
  | case2 c rest h ih =>
    intro _
    rw [replaceDotDot, if_pos h]
    have h2 : 2 ≤ rest.length := by
      have := congrArg List.length h.2
      simp [List.length_take] at this
      omega
    have := replaceDotDot_length_le (rest.drop 2)
    simp only [List.length_cons, List.length_drop] at *
    omega
  | case3 c rest h ih =>
    intro hc
    rw [containsDotDot] at hc
    rw [replaceDotDot, if_neg h]
    have hc' : containsDotDot rest = true := by
      rcases Bool.or_eq_true_iff.mp hc with h1 | h1
      · exact absurd (of_decide_eq_true h1) h
      · exact h1
    have := ih hc'
    simp only [List.length_cons]
    omega

theorem replaceDotDot_sublist : ∀ s : Str, (replaceDotDot s).Sublist s := by
  intro s
  induction s using replaceDotDot.induct with
  | case1 => simp [replaceDotDot]
  | case2 c rest h ih =>
    rw [replaceDotDot, if_pos h]
    exact (ih.trans (List.drop_sublist 2 rest)).trans (List.sublist_cons_self c rest)
  | case3 c rest h ih =>
    rw [replaceDotDot, if_neg h]
    exact List.Sublist.cons₂ c ih

theorem dropDotDotLoopFuel_sublist :
    ∀ (n : Nat) (s : Str), (dropDotDotLoopFuel n s).Sublist s := by
  intro n
  induction n with
  | zero => intro s; exact List.Sublist.refl s
  | succ n ih =>
    intro s
    rw [dropDotDotLoopFuel]
    by_cases h : containsDotDot s = true
    · rw [if_pos h]
      exact (ih (replaceDotDot s)).trans (replaceDotDot_sublist s)
    · rw [if_neg h]

/-- With fuel at least the string's length, the loop reaches a fixpoint
free of the pattern. -/
theorem dropDotDotLoopFuel_no :
    ∀ (n : Nat) (s : Str), s.length ≤ n →
      containsDotDot (dropDotDotLoopFuel n s) = false := by
  intro n
  induction n with
  | zero =>
    intro s h
    have : s = [] := List.eq_nil_of_length_eq_zero (by omega)
    subst this
    rfl
  | succ n ih =>
    intro s h
    rw [dropDotDotLoopFuel]
    by_cases hc : containsDotDot s = true
    · rw [if_pos hc]
      exact ih (replaceDotDot s) (by have := replaceDotDot_length_lt s hc; omega)
    · rw [if_neg hc]
      exact Bool.not_eq_true _ ▸ hc

theorem dropDotDotLoopFuel_id (n : Nat) (s : Str)
    (h : containsDotDot s = false) : dropDotDotLoopFuel n s = s := by
  cases n with
  | zero => rfl
  | succ n =>
    rw [dropDotDotLoopFuel, if_neg (by rw [h]; simp)]

/-- The substring test is the infix relation. -/
theorem containsDotDot_iff (s : Str) :
    containsDotDot s = true ↔ ['.', '.', '/'] <:+: s := by
  induction s with
  | nil =>
    rw [containsDotDot]
    simp
  | cons c rest ih =>
    rw [containsDotDot]
    rw [Bool.or_eq_true_iff, decide_eq_true_eq, ih, List.infix_cons_iff]
    constructor
    · rintro (⟨hc, ht⟩ | h)
      · left
        subst hc
        rw [List.cons_prefix_cons]
        exact ⟨rfl, List.prefix_iff_eq_take.mpr (by simpa using ht.symm)⟩
      · right
        exact h
    · rintro (h | h)
      · left
        cases rest with
        | nil =>
          exfalso
          have := h.length_le
          simp at this
        | cons d t =>
          obtain ⟨h1, h2⟩ := List.cons_prefix_cons.mp h
          cases t with
          | nil =>
            exfalso
            have := h2.length_le
            simp at this
          | cons e u =>
            obtain ⟨h3, h4⟩ := List.cons_prefix_cons.mp h2
            obtain ⟨h5, _⟩ := List.cons_prefix_cons.mp h4
            exact ⟨h1.symm, by rw [← h3, ← h5]; rfl⟩
      · right
        exact h

theorem containsDotDot_of_within {u t : Str} (h : u <:+: t)
    (hn : containsDotDot t = false) : containsDotDot u = false := by
  by_contra hb
  have hu : containsDotDot u = true := by
    cases hc : containsDotDot u
    · exact absurd hc hb
    · rfl
  have := (containsDotDot_iff t).mpr (((containsDotDot_iff u).mp hu).trans h)
  rw [this] at hn
  exact absurd hn (by simp)

/-- Strings reachable from `sanitize_path`'s intermediate stages keep all
their characters inside the original string. -/
theorem sanitize_path_chars (s : Str) :
    ∀ c ∈ sanitize_path s, c ∈ removeMeta s := by
  intro c hc
  unfold sanitize_path pyStrip at hc
  have h1 : c ∈ dropDotDotLoop (removeMeta s) :=
    (stripEnds_within isPySpace (dropDotDotLoop (removeMeta s))).sublist.subset hc
  exact (dropDotDotLoopFuel_sublist _ _).subset h1

/-- Claim C4: `sanitizePath` is idempotent — for every input string,
applying `sanitize_path` twice yields the same result as applying it once
(a single application leaves no residual `../` substring, none of ';',
'&', '|', and no surrounding whitespace for a second application to
remove). -/
theorem C4_sanitizePath_idempotent (s : Str) :
    sanitize_path (sanitize_path s) = sanitize_path s := by
  have hmeta : removeMeta (sanitize_path s) = sanitize_path s := by
    unfold removeMeta
    apply List.filter_eq_self.mpr
    intro c hc
    have := List.of_mem_filter (sanitize_path_chars s c hc)
    rw [this]
  have hnodd : containsDotDot (sanitize_path s) = false := by
    have hloop : containsDotDot (dropDotDotLoop (removeMeta s)) = false :=
      dropDotDotLoopFuel_no _ _ (Nat.le_refl _)
    exact containsDotDot_of_within
      (stripEnds_within isPySpace (dropDotDotLoop (removeMeta s))) hloop
  show pyStrip (dropDotDotLoop (removeMeta (sanitize_path s))) = sanitize_path s
  rw [hmeta]
  unfold dropDotDotLoop
  rw [dropDotDotLoopFuel_id _ _ hnodd]
  show pyStrip (pyStrip (dropDotDotLoop (removeMeta s))) = sanitize_path s
  unfold pyStrip
  rw [stripEnds_idem]
  rfl

/-! ### Lemmas about case folding and the sanitized character set -/

theorem toLower_eq_semicolon (c : Char) (h : Char.toLower c = ';') : c = ';' := by
  simp only [Char.toLower] at h
  split at h
  · next hc =>
    exfalso
    have hv : Nat.isValidChar (c.toNat + 32) := by
      left
      omega
    rw [Char.ofNat, dif_pos hv] at h
    have h2 := congrArg Char.toNat h
    have h3 : (Char.ofNatAux (c.toNat + 32) hv).toNat = c.toNat + 32 := by
      simp [Char.ofNatAux, Char.toNat, UInt32.toNat]
    rw [h3] at h2
    have h4 : (';' : Char).toNat = 59 := by decide
    omega
  · exact h

theorem semicolon_not_mem_sanitize (s : Str) : ';' ∉ sanitize_command s := by
  intro hmem
  unfold sanitize_command sanitize_text_content removeCtrl at hmem
  have h1 : (';' : Char) ∈ stripQuotes (removeMeta s) := List.mem_of_mem_filter hmem
  have h2 : (';' : Char) ∈ removeMeta s :=
    (stripEnds_within isQuoteChar (removeMeta s)).sublist.subset h1
  have h3 := List.of_mem_filter h2
  simp [isShellMeta] at h3

/-- No whitespace token of the lower-cased sanitized command can be the
fork-bomb literal: sanitization has removed every ';'. -/
theorem forkBomb_not_token (raw : Str) :
    (pySplit (pyLower (sanitize_command raw))).contains forkBombStr = false := by
  by_contra hb
  have hc : (pySplit (pyLower (sanitize_command raw))).contains forkBombStr = true := by
    cases h : (pySplit (pyLower (sanitize_command raw))).contains forkBombStr
    · exact absurd h hb
    · rfl
  have hmem : forkBombStr ∈ pySplit (pyLower (sanitize_command raw)) :=
    List.mem_of_elem_eq_true hc
  have hsemi : (';' : Char) ∈ forkBombStr := by decide
  have := pySplitAux_chars (pyLower (sanitize_command raw)) [] forkBombStr hmem ';' hsemi
  rcases this with h | h
  · unfold pyLower at h
    obtain ⟨c, hc1, hc2⟩ := List.mem_map.mp h
    have : c = ';' := toLower_eq_semicolon c hc2
    subst this
    exact semicolon_not_mem_sanitize raw hc1
  · exact absurd h (List.not_mem_nil ';')

/-! ### Claim theorems -/

/-- Claim C10: the fork-bomb entry of the blocked-token set can never
match in `execute` — for every raw command, sanitization removes every
';', '&', '|' before `is_safe_command` runs, so no whitespace token of
the sanitized (lower-cased) command ever equals that entry, and removing
it from the deny-list never changes the verdict of the safety check as
`execute` invokes it. -/
theorem C10_forkbomb_inert (raw : Str) :
    (pySplit (pyLower (sanitize_command raw))).contains forkBombStr = false ∧
    is_safe_command (sanitize_command raw) =
      is_safe_command_with BLOCKED_COMMANDS_sansFork (sanitize_command raw) := by
  refine ⟨forkBomb_not_token raw, ?_⟩
  unfold is_safe_command is_safe_command_with
  have hfork : (pySplit (pyLower (sanitize_command raw))).contains forkBombStr = false :=
    forkBomb_not_token raw
  simp only [BLOCKED_COMMANDS, BLOCKED_COMMANDS_sansFork, List.any_cons, List.any_nil,
    hfork, Bool.or_false, Bool.false_or]

/-- Counterexample for claim C3: on the input `""a""` the code's sanitizer
strips all surrounding quote characters (Python `str.strip`), not exactly
one layer as the claim states. -/
theorem C3_sanitize_counterexample :
    sanitize_text_content ("\"\"a\"\"".data) = (['a'] : Str) ∧
    sanitizeClaimC3 ("\"\"a\"\"".data) = ('"' :: 'a' :: '"' :: []) ∧
    sanitize_text_content ("\"\"a\"\"".data) ≠ sanitizeClaimC3 ("\"\"a\"\"".data) := by
  decide

/-- Amended claim C3: `sanitize_text_content` is a pure total function
that, for every input string, strips every occurrence of ';', '&', '|'
anywhere in the string, then trims all leading and all trailing quote
characters (not just one layer), then strips all characters with code
points below 32. -/
theorem C3_sanitize_amended (s : Str) :
    sanitize_text_content s = sanitizeAmendedC3 s := by
  have e1 : (fun c => !(isShellMeta c)) =
      (fun c => decide (c ≠ ';') && decide (c ≠ '&') && decide (c ≠ '|')) := by
    funext c
    by_cases h1 : c = ';'
    · subst h1; decide
    · by_cases h2 : c = '&'
      · subst h2; decide
      · by_cases h3 : c = '|'
        · subst h3; decide
        · simp [isShellMeta, h1, h2, h3]
  have e2 : isQuoteChar = (fun c => decide (c = '"') || decide (c = '\'')) := by
    funext c
    by_cases h1 : c = '"'
    · subst h1; decide
    · by_cases h2 : c = '\''
      · subst h2; decide
      · simp [isQuoteChar, h1, h2]
  simp only [sanitize_text_content, sanitizeAmendedC3, removeMeta, removeCtrl,
    stripQuotes, stripEnds]
  rw [e1, e2]

/-- Claim C8: when the journal is non-empty and its most recent entry's
first token is neither `mkdir` nor `touch`, undo fails with the
unsupported-command error and the entry is nevertheless consumed: the
journal shrinks by one, the filesystem is untouched, and the entry is not
restored. -/
theorem C8_undo_unsupported_pops (env : Env) (fs : FS) (j : List Str) (e t : Str)
    (ht : (pySplit e).head? = some t)
    (h1 : t ≠ mkdirStr) (h2 : t ≠ touchStr) :
    undo env ⟨fs, j ++ [e]⟩ = some (⟨false, [], e, some msgUnsupported⟩, ⟨fs, j⟩) := by
  unfold undo
  rw [List.getLast?_concat]
  simp only
  rw [List.dropLast_concat]
  rw [ht]
  simp only
  rw [if_neg h1, if_neg h2]

/-- Witness for C8: a journal whose top entry is `ls -la`. -/
theorem C8_undo_unsupported_pops_witness :
    undo envA ⟨fsA, [("ls -la".data)]⟩ =
      some (⟨false, [], ("ls -la".data), some msgUnsupported⟩, ⟨fsA, []⟩) := by
  have h := C8_undo_unsupported_pops envA fsA [] ("ls -la".data) ("ls".data)
    (by decide) (by decide) (by decide)
  simpa using h

/-- Counterexample for claim C2: the sanitized command `mkdir rm`
contains the blocked token `rm` as a whitespace token, yet `execute`
succeeds (it dispatches to the directory-creation path, which never
consults the deny-list), refuting both the `success=false` part and the
security-block part of the claim. -/
theorem C2_security_counterexample :
    (pySplit (pyLower (sanitize_command ("mkdir rm".data)))).contains rmStr = true ∧
    (execute envA stA ("mkdir rm".data)).result.success = true ∧
    (execute envA stA ("mkdir rm".data)).result.error = none := by
  decide

/-- Amended claim C2: for every command whose sanitized form dispatches to
the generic execution path (it neither starts with `echo` while containing
'>', nor starts with `mkdir`, nor starts with `touch`) and whose
lower-cased whitespace tokens contain a blocked token, `execute` returns
`success=false` with the security-block error, no subprocess is spawned,
and the state is unchanged. -/
theorem C2_security_amended (env : Env) (st : ExecState) (raw : Str)
    (h1 : (echoStr.isPrefixOf (sanitize_command raw) &&
      (sanitize_command raw).contains '>') = false)
    (h2 : mkdirStr.isPrefixOf (sanitize_command raw) = false)
    (h3 : touchStr.isPrefixOf (sanitize_command raw) = false)
    (hb : ∃ b ∈ BLOCKED_COMMANDS,
      (pySplit (pyLower (sanitize_command raw))).contains b = true) :
    (execute env st raw).result =
      ⟨false, [], sanitize_command raw, some msgBlocked⟩ ∧
    (execute env st raw).spawned = false ∧
    (execute env st raw).state = st := by
  have hsafe : is_safe_command (sanitize_command raw) = false := by
    unfold is_safe_command is_safe_command_with
    obtain ⟨b, hbmem, hbc⟩ := hb
    have hany : BLOCKED_COMMANDS.any
        (fun b => (pySplit (pyLower (sanitize_command raw))).contains b) = true :=
      List.any_eq_true.mpr ⟨b, hbmem, hbc⟩
    rw [if_pos hany]
  simp only [execute]
  rw [if_neg (by rw [h1]; simp), if_neg (by rw [h2]; simp),
    if_neg (by rw [h3]; simp), if_pos (by rw [hsafe]; rfl)]
  exact ⟨rfl, rfl, rfl⟩

/-- Witness for C2 (amended): `rm -rf /` is blocked without a spawn. -/
theorem C2_security_amended_witness :
    (execute envA stA ("rm -rf /".data)).result =
      ⟨false, [], sanitize_command ("rm -rf /".data), some msgBlocked⟩ ∧
    (execute envA stA ("rm -rf /".data)).spawned = false ∧
    (execute envA stA ("rm -rf /".data)).state = stA :=
  C2_security_amended envA stA ("rm -rf /".data) (by decide) (by decide) (by decide)
    ⟨rmStr, by decide, by decide⟩

/-! ### Result-shape lemmas for the handlers -/

theorem write_to_file_inv (env : Env) (fs : FS) (fp content cmd : Str) :
    (write_to_file env fs fp content cmd).1.error.isSome =
      !(write_to_file env fs fp content cmd).1.success := by
  unfold write_to_file
  split
  · rfl
  · split
    · rfl
    · split
      · rfl
      · rfl

theorem handle_echo_inv (env : Env) (fs : FS) (cmd : Str) :
    (handle_echo env fs cmd).1.error.isSome = !(handle_echo env fs cmd).1.success := by
  unfold handle_echo
  split
  · rfl
  · exact write_to_file_inv env fs _ _ cmd

theorem handle_mkdir_inv (env : Env) (fs : FS) (cmd : Str) :
    (handle_mkdir env fs cmd).1.error.isSome = !(handle_mkdir env fs cmd).1.success := by
  unfold handle_mkdir
  split
  · rfl
  · split
    · rfl
    · dsimp only
      split <;> split <;> first | rfl | (split <;> rfl)

theorem handle_touch_inv (env : Env) (fs : FS) (cmd : Str) :
    (handle_touch env fs cmd).1.error.isSome = !(handle_touch env fs cmd).1.success := by
  unfold handle_touch
  split
  · rfl
  · split
    · rfl
    · dsimp only
      split
      · rfl
      · split
        · rfl
        · split
          · rfl
          · rfl

/-- Claim C7: every `CommandResult` returned by `execute` or by `undo`
satisfies: the error field is set (some) if and only if success is false.
(Results are immutable values of the embedding; no code path of the source
mutates a constructed result.) -/
theorem C7_error_iff_failure :
    (∀ env st raw, (execute env st raw).result.error.isSome =
      !(execute env st raw).result.success) ∧
    (∀ env st r st', undo env st = some (r, st') →
      r.error.isSome = !r.success) := by
  constructor
  · intro env st raw
    simp only [execute]
    split
    · exact handle_echo_inv env st.fs _
    · split
      · exact handle_mkdir_inv env st.fs _
      · split
        · exact handle_touch_inv env st.fs _
        · split
          · rfl
          · split
            · rfl
            · split
              · rfl
              · rename_i args heqq hrr
                show (if env.runExit args == 0 then none
                  else some (env.runErr args)).isSome = !(env.runExit args == 0)
                by_cases hc : (env.runExit args == 0) = true
                · rw [if_pos hc, hc]
                  rfl
                · have hc' : (env.runExit args == 0) = false :=
                    Bool.eq_false_iff.mpr (fun hb => hc hb)
                  rw [if_neg (by rw [hc']; simp), hc']
                  rfl
  · intro env st r st' h
    unfold undo at h
    split at h
    · injection h with h2
      injection h2 with hr hs
      subst hr
      rfl
    · dsimp only at h
      split at h
      · exact absurd h (by simp)
      · split at h
        · split at h
          · injection h with h2
            injection h2 with hr hs
            subst hr
            rfl
          · injection h with h2
            injection h2 with hr hs
            subst hr
            rfl
        · split at h
          · split at h
            · injection h with h2
              injection h2 with hr hs
              subst hr
              rfl
            · injection h with h2
              injection h2 with hr hs
              subst hr
              rfl
          · injection h with h2
            injection h2 with hr hs
            subst hr
            rfl

/-- Witness for C7: concrete evaluations of both conjuncts. -/
theorem C7_error_iff_failure_witness :
    (execute envA stA ("ls -la".data)).result.error.isSome =
      !(execute envA stA ("ls -la".data)).result.success ∧
    ((⟨false, [], ("ls -la".data), some msgUnsupported⟩ : CommandResult).error.isSome =
      !(⟨false, [], ("ls -la".data), some msgUnsupported⟩ : CommandResult).success) :=
  ⟨C7_error_iff_failure.1 envA stA ("ls -la".data),
   C7_error_iff_failure.2 envA ⟨fsA, [("ls -la".data)]⟩
     ⟨false, [], ("ls -la".data), some msgUnsupported⟩ ⟨fsA, []⟩ (by decide)⟩

/-- Counterexample for claim C9: the target of `echo hi > /a/b/x.py` has
parent directory /a/b, which exists and is OS-writable, yet the write
fails — the permission probe inspects the parent's parent /a, which is not
writable in this environment. -/
theorem C9_echo_counterexample :
    pathParent (sanitize_path (pyStrip
      (splitFirstGt (sanitize_command ("echo hi > /a/b/x.py".data))).2)) = ("/a/b".data) ∧
    fsC9x.dirs.contains ("/a/b".data) = true ∧
    envC9x.perm ("/a/b".data) = true ∧
    (execute envC9x ⟨fsC9x, []⟩ ("echo hi > /a/b/x.py".data)).result.success = false := by
  decide

/-- Amended claim C9: every sanitized command that starts with `echo` and
contains '>' dispatches to the file-write path without consulting
`is_safe_command` and without spawning a subprocess; no file-extension
check is applied to the redirection target (which may carry any suffix),
and the write succeeds when the target's parent directory exists, the
`os.access` probe on the parent's parent passes (the permission check
inspects the parent of the parent), and the OS grants write on the parent
itself. -/
theorem C9_echo_no_safety_amended (env : Env) (st : ExecState) (raw : Str)
    (hp : echoStr.isPrefixOf (sanitize_command raw) = true)
    (hg : (sanitize_command raw).contains '>' = true) :
    (execute env st raw).checkedSafe = false ∧
    (execute env st raw).spawned = false ∧
    (st.fs.dirs.contains (pathParent (sanitize_path (pyStrip
        (splitFirstGt (sanitize_command raw)).2))) = true →
      osAccessW env st.fs (pathParent (pathParent (sanitize_path (pyStrip
        (splitFirstGt (sanitize_command raw)).2)))) = true →
      env.perm (pathParent (sanitize_path (pyStrip
        (splitFirstGt (sanitize_command raw)).2))) = true →
      (execute env st raw).result.success = true) := by
  have hd : (echoStr.isPrefixOf (sanitize_command raw) &&
      (sanitize_command raw).contains '>') = true := by
    rw [hp, hg]
    rfl
  simp only [execute]
  rw [if_pos hd]
  refine ⟨rfl, rfl, ?_⟩
  intro hparent hacc hperm
  show (handle_echo env st.fs (sanitize_command raw)).1.success = true
  unfold handle_echo
  rw [if_neg (by rw [hg]; simp)]
  unfold write_to_file has_write_permission
  rw [if_neg (by rw [hparent]; simp), if_neg (by rw [hacc]; simp), if_pos hperm]

/-- Witness for C9 (amended): a `.py` target is written successfully. -/
theorem C9_echo_no_safety_amended_witness :
    (execute envA ⟨fsA, []⟩ ("echo hi > /w/x.py".data)).checkedSafe = false ∧
    (execute envA ⟨fsA, []⟩ ("echo hi > /w/x.py".data)).spawned = false ∧
    (fsA.dirs.contains (pathParent (sanitize_path (pyStrip
        (splitFirstGt (sanitize_command ("echo hi > /w/x.py".data))).2))) = true →
      osAccessW envA fsA (pathParent (pathParent (sanitize_path (pyStrip
        (splitFirstGt (sanitize_command ("echo hi > /w/x.py".data))).2)))) = true →
      envA.perm (pathParent (sanitize_path (pyStrip
        (splitFirstGt (sanitize_command ("echo hi > /w/x.py".data))).2))) = true →
      (execute envA ⟨fsA, []⟩ ("echo hi > /w/x.py".data)).result.success = true) :=
  C9_echo_no_safety_amended envA ⟨fsA, []⟩ ("echo hi > /w/x.py".data)
    (by decide) (by decide)

theorem plainChar_props {c : Char} (h : plainChar c = true) :
    isShellMeta c = false ∧ isQuoteChar c = false ∧ 32 ≤ c.toNat := by
  unfold plainChar at h
  simp only [Bool.and_eq_true, Bool.not_eq_true', decide_eq_true_eq] at h
  exact ⟨h.1.1.2, h.1.1.1.2, h.1.2⟩

/-- Sanitization of a `<verb> <arg>` command built from plain characters
is the identity; stated for the two verbs the claims need. -/
theorem sanitize_verb_arg (verb : Str) (arg : Str)
    (hverb : ∀ c ∈ verb, isShellMeta c = false ∧ isQuoteChar c = false ∧ 32 ≤ c.toNat)
    (hplain : ∀ c ∈ arg, plainChar c = true) :
    sanitize_command (verb ++ ' ' :: arg) = verb ++ ' ' :: arg := by
  apply sanitize_command_eq_self
  intro c hc
  rcases List.mem_append.mp hc with h | h
  · exact hverb c h
  · rcases List.mem_cons.mp h with h | h
    · subst h
      refine ⟨rfl, rfl, ?_⟩
      decide
    · exact plainChar_props (hplain c h)

theorem touchStr_chars :
    ∀ c ∈ touchStr, isShellMeta c = false ∧ isQuoteChar c = false ∧ 32 ≤ c.toNat := by
  decide

theorem mkdirStr_chars :
    ∀ c ∈ mkdirStr, isShellMeta c = false ∧ isQuoteChar c = false ∧ 32 ≤ c.toNat := by
  decide

/-- Counterexample for claim C6: with an unwritable parent directory,
`touch /w/a.exe` (disallowed suffix `.exe`) fails with the
permission-denied error, not with `ExtensionNotAllowed` — the permission
check precedes the extension check. -/
theorem C6_touch_counterexample :
    ALLOWED_FILE_EXTENSIONS.contains (pathSuffix ("/w/a.exe".data)) = false ∧
    (execute envNoPerm ⟨fsA, []⟩ ("touch /w/a.exe".data)).result.error =
      some (msgPermTouch ("/w/a.exe".data)) ∧
    (execute envNoPerm ⟨fsA, []⟩ ("touch /w/a.exe".data)).result.error ≠
      some msgExtDenied := by
  decide

/-- Amended claim C6: for every `touch <path>` with a plain path whose
resolved parent passes the `os.access` write probe: when the resolved
path's suffix is outside {.txt, .md, .csv} the command fails with
`ExtensionNotAllowed`; when the suffix is in that set the command
succeeds and a file exists at the resolved path afterwards (created empty
when it did not exist before; the permission-denied case of the original
claim is excluded because the permission check runs first). -/
theorem C6_touch_extension_amended (env : Env) (fs : FS) (j : List Str) (path : Str)
    (hplain : ∀ c ∈ path, plainChar c = true)
    (hne : path ≠ [])
    (hacc : osAccessW env fs (pathParent (resolveAbsOrRel env.cwd path)) = true) :
    (ALLOWED_FILE_EXTENSIONS.contains (pathSuffix (resolveAbsOrRel env.cwd path)) = false →
      (execute env ⟨fs, j⟩ (touchStr ++ ' ' :: path)).result =
        ⟨false, [], touchStr ++ ' ' :: path, some msgExtDenied⟩) ∧
    (ALLOWED_FILE_EXTENSIONS.contains (pathSuffix (resolveAbsOrRel env.cwd path)) = true →
      (execute env ⟨fs, j⟩ (touchStr ++ ' ' :: path)).result.success = true ∧
      (execute env ⟨fs, j⟩ (touchStr ++ ' ' :: path)).state.fs.files.any
        (fun kv => kv.1 == resolveAbsOrRel env.cwd path) = true ∧
      (fs.files.any (fun kv => kv.1 == resolveAbsOrRel env.cwd path) = false →
        (resolveAbsOrRel env.cwd path, ([] : Str)) ∈
          (execute env ⟨fs, j⟩ (touchStr ++ ' ' :: path)).state.fs.files)) := by
  have hsan : sanitize_command (touchStr ++ ' ' :: path) = touchStr ++ ' ' :: path :=
    sanitize_verb_arg touchStr path touchStr_chars hplain
  have hd1 : (echoStr.isPrefixOf (touchStr ++ ' ' :: path) &&
      (touchStr ++ ' ' :: path).contains '>') = false := rfl
  have hd2 : mkdirStr.isPrefixOf (touchStr ++ ' ' :: path) = false := rfl
  have hd3 : touchStr.isPrefixOf (touchStr ++ ' ' :: path) = true := rfl
  have hexec : execute env ⟨fs, j⟩ (touchStr ++ ' ' :: path) =
      ⟨(handle_touch env fs (touchStr ++ ' ' :: path)).1,
        ⟨(handle_touch env fs (touchStr ++ ' ' :: path)).2,
          j ++ [touchStr ++ ' ' :: path]⟩, false, false⟩ := by
    simp only [execute, hsan]
    rw [if_neg (by rw [hd1]; simp), if_neg (by rw [hd2]; simp), if_pos hd3]
  have hparts : shlexSplit (touchStr ++ ' ' :: path) = some [touchStr, path] :=
    shlexSplit_touch path hplain hne
  rw [hexec]
  unfold handle_touch
  rw [hparts]
  dsimp only
  rw [if_neg (by simp)]
  rw [show ([touchStr, path] : List Str).getLastD [] = path from rfl]
  unfold has_write_permission
  rw [if_neg (by rw [hacc]; simp)]
  constructor
  · intro hext
    rw [if_pos (by rw [hext]; rfl)]
  · intro hext
    rw [if_neg (by rw [hext]; simp)]
    rw [if_pos (show (fs.dirs.contains (pathParent (resolveAbsOrRel env.cwd path)) &&
        env.perm (pathParent (resolveAbsOrRel env.cwd path))) = true from hacc)]
    refine ⟨rfl, ?_, ?_⟩
    · show (touchFile fs (resolveAbsOrRel env.cwd path)).files.any
        (fun kv => kv.1 == resolveAbsOrRel env.cwd path) = true
      unfold touchFile
      by_cases hex : fs.files.any
          (fun kv => kv.1 == resolveAbsOrRel env.cwd path) = true
      · rw [if_pos hex]
        exact hex
      · rw [if_neg hex]
        simp
    · intro hex
      show (resolveAbsOrRel env.cwd path, ([] : Str)) ∈
        (touchFile fs (resolveAbsOrRel env.cwd path)).files
      unfold touchFile
      rw [if_neg (by rw [hex]; simp)]
      exact List.mem_cons_self _ _

/-- Witness for C6 (amended): `touch a.txt` in a writable directory
creates the file. -/
theorem C6_touch_extension_amended_witness :
    (ALLOWED_FILE_EXTENSIONS.contains
        (pathSuffix (resolveAbsOrRel envA.cwd ("a.txt".data))) = false →
      (execute envA ⟨fsA, []⟩ (touchStr ++ ' ' :: ("a.txt".data))).result =
        ⟨false, [], touchStr ++ ' ' :: ("a.txt".data), some msgExtDenied⟩) ∧
    (ALLOWED_FILE_EXTENSIONS.contains
        (pathSuffix (resolveAbsOrRel envA.cwd ("a.txt".data))) = true →
      (execute envA ⟨fsA, []⟩ (touchStr ++ ' ' :: ("a.txt".data))).result.success = true ∧
      (execute envA ⟨fsA, []⟩ (touchStr ++ ' ' :: ("a.txt".data))).state.fs.files.any
        (fun kv => kv.1 == resolveAbsOrRel envA.cwd ("a.txt".data)) = true ∧
      (fsA.files.any (fun kv => kv.1 == resolveAbsOrRel envA.cwd ("a.txt".data)) = false →
        (resolveAbsOrRel envA.cwd ("a.txt".data), ([] : Str)) ∈
          (execute envA ⟨fsA, []⟩ (touchStr ++ ' ' :: ("a.txt".data))).state.fs.files)) :=
  C6_touch_extension_amended envA fsA [] ("a.txt".data) (by decide) (by decide) (by decide)

/-- Counterexample for claim C5: `execute "mkdir ~/d"` succeeds (the
handler expands '~' to the home directory), but the immediately following
`undo` fails — it resolves the journal entry's token `~/d` against the
working directory without '~' expansion — and the created directory
/home/u/d remains on the filesystem. -/
theorem C5_mkdir_undo_counterexample :
    (execute envA stA ("mkdir ~/d".data)).result.success = true ∧
    (undo envA (execute envA stA ("mkdir ~/d".data)).state).map
      (fun ru => ru.1.success) = some false ∧
    (undo envA (execute envA stA ("mkdir ~/d".data)).state).map
      (fun ru => ru.2.fs.dirs.contains ("/home/u/d".data)) = some true := by
  decide

/-- Amended claim C5: for every plain directory name (no whitespace,
quotes, shell metacharacters, control characters or backslashes, and not
starting with '~') whose resolved parent passes the `os.access` write
probe, `execute "mkdir <dir>"` on an empty journal succeeds, the
immediately following `undo` removes the created directory and returns
success, and a second `undo` with the journal now empty fails with
`NoHistory`.  Names starting with '~' are excluded: the handler expands
them but `undo` does not, as the counterexample shows. -/
theorem C5_mkdir_undo_roundtrip_amended (env : Env) (fs : FS) (dir : Str)
    (hplain : ∀ c ∈ dir, plainChar c = true)
    (hne : dir ≠ [])
    (hnt : List.isPrefixOf ['~'] dir = false)
    (hparent : fs.dirs.contains (pathParent (resolveAbsOrRel env.cwd dir)) = true)
    (hperm : env.perm (pathParent (resolveAbsOrRel env.cwd dir)) = true) :
    (execute env ⟨fs, []⟩ (mkdirStr ++ ' ' :: dir)).result.success = true ∧
    ∃ r1 st1, undo env (execute env ⟨fs, []⟩ (mkdirStr ++ ' ' :: dir)).state =
        some (r1, st1) ∧
      r1.success = true ∧
      st1.fs.dirs.contains (resolveAbsOrRel env.cwd dir) = false ∧
      st1.journal = [] ∧
      (undo env st1).map (fun ru => ru.1.error) = some (some msgNoHistory) := by
  have hsan : sanitize_command (mkdirStr ++ ' ' :: dir) = mkdirStr ++ ' ' :: dir :=
    sanitize_verb_arg mkdirStr dir mkdirStr_chars hplain
  have hd1 : (echoStr.isPrefixOf (mkdirStr ++ ' ' :: dir) &&
      (mkdirStr ++ ' ' :: dir).contains '>') = false := rfl
  have hd2 : mkdirStr.isPrefixOf (mkdirStr ++ ' ' :: dir) = true := rfl
  have hexec : execute env ⟨fs, []⟩ (mkdirStr ++ ' ' :: dir) =
      ⟨(handle_mkdir env fs (mkdirStr ++ ' ' :: dir)).1,
        ⟨(handle_mkdir env fs (mkdirStr ++ ' ' :: dir)).2,
          [mkdirStr ++ ' ' :: dir]⟩, false, false⟩ := by
    simp only [execute, hsan]
    rw [if_neg (by rw [hd1]; simp), if_pos hd2]
    rfl
  have hparts : shlexSplit (mkdirStr ++ ' ' :: dir) = some [mkdirStr, dir] :=
    shlexSplit_mkdir dir hplain hne
  have hacc : osAccessW env fs (pathParent (resolveAbsOrRel env.cwd dir)) = true := by
    unfold osAccessW
    rw [hparent, hperm]
    rfl
  have hmk : handle_mkdir env fs (mkdirStr ++ ' ' :: dir) =
      ((⟨true, msgDirCreated (resolveAbsOrRel env.cwd dir), mkdirStr ++ ' ' :: dir, none⟩ :
        CommandResult),
       (ensure_directory_exists env fs (resolveAbsOrRel env.cwd dir)).2) := by
    unfold handle_mkdir
    rw [hparts]
    dsimp only
    rw [if_neg (by simp)]
    rw [show ([mkdirStr, dir] : List Str).getLastD [] = dir from rfl]
    simp only [hnt, Bool.false_eq_true, if_false]
    unfold has_write_permission osAccessW
    rw [if_neg (by rw [hparent, hperm]; simp)]
    have hed : (ensure_directory_exists env fs (resolveAbsOrRel env.cwd dir)).1 = true := by
      unfold ensure_directory_exists
      by_cases hdir : fs.dirs.contains (resolveAbsOrRel env.cwd dir) = true
      · rw [if_pos hdir]
      · rw [if_neg hdir, if_pos (by rw [hparent, hperm]; rfl)]
    rw [if_pos hed]
  have hfs1 : (ensure_directory_exists env fs
      (resolveAbsOrRel env.cwd dir)).2.dirs.contains (resolveAbsOrRel env.cwd dir) = true := by
    unfold ensure_directory_exists
    by_cases hdir : fs.dirs.contains (resolveAbsOrRel env.cwd dir) = true
    · rw [if_pos hdir]
      exact hdir
    · rw [if_neg hdir, if_pos (by rw [hparent, hperm]; rfl)]
      simp
  have hsplit : pySplit (mkdirStr ++ ' ' :: dir) = [mkdirStr, dir] :=
    pySplit_mkdir dir (fun c hc => plainChar_not_space (hplain c hc)) hne
  set fs1 := (ensure_directory_exists env fs (resolveAbsOrRel env.cwd dir)).2 with hfs1def
  have hrm : rmtree env fs1 dir = some
      ⟨fs1.dirs.filter (fun d => !(isUnder (resolveAbsOrRel env.cwd dir) d)),
       fs1.files.filter (fun kv => !(isUnder (resolveAbsOrRel env.cwd dir) kv.1))⟩ := by
    unfold rmtree
    rw [if_pos (by rw [hfs1, hperm]; rfl)]
  constructor
  · rw [hexec, hmk]
  · refine ⟨⟨true, msgRemovedDir dir, mkdirStr ++ ' ' :: dir, none⟩,
      ⟨⟨fs1.dirs.filter (fun d => !(isUnder (resolveAbsOrRel env.cwd dir) d)),
        fs1.files.filter (fun kv => !(isUnder (resolveAbsOrRel env.cwd dir) kv.1))⟩, []⟩,
      ?_, rfl, ?_, rfl, rfl⟩
    · rw [hexec, hmk]
      unfold undo
      rw [show ((⟨fs1, [mkdirStr ++ ' ' :: dir]⟩ : ExecState)).journal.getLast? =
        some (mkdirStr ++ ' ' :: dir) from rfl]
      dsimp only
      rw [hsplit]
      dsimp only [List.head?]
      rw [if_pos rfl]
      rw [show ([mkdirStr, dir] : List Str).getLastD [] = dir from rfl]
      rw [hrm]
      rfl
    · by_contra hb
      have hc : (fs1.dirs.filter
          (fun d => !(isUnder (resolveAbsOrRel env.cwd dir) d))).contains
            (resolveAbsOrRel env.cwd dir) = true := by
        cases h : (fs1.dirs.filter
            (fun d => !(isUnder (resolveAbsOrRel env.cwd dir) d))).contains
              (resolveAbsOrRel env.cwd dir)
        · exact absurd h hb
        · rfl
      have hmem := List.mem_of_elem_eq_true hc
      have := List.of_mem_filter hmem
      simp [isUnder] at this

/-- Witness for C5 (amended): `mkdir d` then `undo` round-trips. -/
theorem C5_mkdir_undo_roundtrip_amended_witness :
    (execute envA ⟨fsA, []⟩ (mkdirStr ++ ' ' :: (['d'] : Str))).result.success = true ∧
    ∃ r1 st1, undo envA (execute envA ⟨fsA, []⟩ (mkdirStr ++ ' ' :: (['d'] : Str))).state =
        some (r1, st1) ∧
      r1.success = true ∧
      st1.fs.dirs.contains (resolveAbsOrRel envA.cwd (['d'] : Str)) = false ∧
      st1.journal = [] ∧
      (undo envA st1).map (fun ru => ru.1.error) = some (some msgNoHistory) :=
  C5_mkdir_undo_roundtrip_amended envA fsA (['d'] : Str)
    (by decide) (by decide) (by decide) (by decide) (by decide)

end LLMShell
